import Mathlib

/-!
Verification development for the significance-scored, budget-constrained
extraction pipeline of the sential repository.

The Python modules `core/models.py`, `core/categorization.py`, `core/tokens.py`,
`core/processing.py`, `core/ctags_extraction.py` and `constants.py` are shallowly
embedded below.  Paths are modelled as their component lists (Python
`Path.parts`); the filesystem, the external ctags subprocess, the JSON decoder
and the token counter are modelled as explicit oracle functions, mirroring the
duck-typed protocols (`FileReader`, `TokenCounter`, the subprocess factory) that
the Python code itself uses for dependency injection.  Mutable objects
(`PooledTokenBudget`, `CategoryProcessedFiles`, the in-place list sort of
`process_files`) become explicit state passing.
-/

namespace Sential

/-- Embeds `FileCategory` from `core/models.py`. -/
inductive FileCategory where
  | CONTEXT
  | MANIFEST
  | SIGNAL
  | SOURCE
  | CHAPTER_FILE
  | UNKNOWN
deriving DecidableEq, Repr

/-- Embeds the `.value` strings of the `FileCategory` enum in `core/models.py`. -/
def FileCategory.value : FileCategory → String
  | .CONTEXT => "context_file"
  | .MANIFEST => "manifest_file"
  | .SIGNAL => "signal_file"
  | .SOURCE => "source_file"
  | .CHAPTER_FILE => "chapter_file"
  | .UNKNOWN => "generic_file"

/-- Embeds Python `str.lower` (kernel-evaluable, character by character). -/
def pyLower (s : String) : String := ⟨s.data.map Char.toLower⟩

/-- Helper for `pyStartsWith`: list-level Boolean string-head test. -/
def charsStart : List Char → List Char → Bool
  | _, [] => true
  | [], _ :: _ => false
  | c :: cs, p :: ps => c = p && charsStart cs ps

/-- Embeds Python `str.startswith` (kernel-evaluable). -/
def pyStartsWith (s pre : String) : Bool := charsStart s.data pre.data

/-- A relative path, modelled as its component list (Python `Path.parts`). -/
abbrev PyPath := List String

/-- Embeds Python `str(Path)` for a relative path: components joined by slashes. -/
def pathStr (p : PyPath) : String := String.intercalate "/" p

/-- Embeds Python `Path.name`: the final path component (empty for an empty path). -/
def pathName (p : PyPath) : String := (p.getLast?).getD ""

/-- Index of the last dot in a character list, as Python `str.rfind` finds it. -/
def lastDotIdx (cs : List Char) : Option Nat :=
  (List.range cs.length).foldl
    (fun acc i => if cs.getD i ' ' = '.' then some i else acc) none

/-- Embeds Python `PurePath.suffix` computed from the file name: the substring
from the last dot on, provided that dot is neither the first nor the last
character; otherwise the empty string. -/
def pySuffix (name : String) : String :=
  match lastDotIdx name.data with
  | some i => if 0 < i ∧ i + 1 < name.data.length then ⟨name.data.drop i⟩ else ""
  | none => ""

/-- Embeds Python `PurePath.stem` computed from the file name: the part of the
name before its suffix, or the whole name when the suffix is empty. -/
def pyStem (name : String) : String :=
  match lastDotIdx name.data with
  | some i => if 0 < i ∧ i + 1 < name.data.length then ⟨name.data.take i⟩ else name
  | none => name

/-- Embeds `FileMetadata` from `core/models.py` (the mutable `category` and
`score` fields; the derived fields of `__post_init__` are the functions
below). -/
structure FileMetadata where
  file_path : PyPath
  category : FileCategory := FileCategory.UNKNOWN
  score : Int := 0
deriving DecidableEq, Repr

/-- Embeds `FileMetadata.name_lower` from `core/models.py`. -/
def FileMetadata.name_lower (m : FileMetadata) : String :=
  pyLower (pathName m.file_path)

/-- Embeds `FileMetadata.suffix_lower` from `core/models.py`. -/
def FileMetadata.suffix_lower (m : FileMetadata) : String :=
  pyLower (pySuffix (pathName m.file_path))

/-- Embeds `FileMetadata.stem_lower` from `core/models.py`. -/
def FileMetadata.stem_lower (m : FileMetadata) : String :=
  pyLower (pyStem (pathName m.file_path))

/-- Embeds `FileMetadata.depth` from `core/models.py`: the number of path parts. -/
def FileMetadata.depth (m : FileMetadata) : Nat := m.file_path.length

/-- Embeds `FileMetadata.file_parents` from `core/models.py`: the lower-cased
parent directory names. -/
def FileMetadata.file_parents (m : FileMetadata) : List String :=
  m.file_path.dropLast.map pyLower

/-- Embeds `ProcessedFile` from `core/models.py`. -/
structure ProcessedFile where
  path : String
  type : String
  content : String
deriving DecidableEq, Repr

/-- Embeds `Ctag` from `core/models.py`. -/
structure Ctag where
  path : String
  kind : String
  name : String
deriving DecidableEq, Repr

/-- Embeds `SupportedLanguage` from `models.py`. -/
inductive SupportedLanguage where
  | PY
  | JS
  | JAVA
  | CS
  | GO
  | CPP
deriving DecidableEq, Repr

/-- Embeds the `LanguagesHeuristics` TypedDict from `models.py`; the frozen
sets become lists whose membership is what the Python `in` tests observe. -/
structure LanguagesHeuristics where
  manifests : List String
  extensions : List String
  signals : List String
  ignore_dirs : List String

/-- Embeds `UNIVERSAL_CONTEXT_FILES` from `constants.py`. -/
def UNIVERSAL_CONTEXT_FILES : List String :=
  ["readme.md", "readme.txt", "architecture.md", "contributing.md", "design.md",
   "claude.md", ".cursorrules", ".windsurfrules",
   ".env.example", ".env.template", "docker-compose.yml", "dockerfile",
   "makefile", "justfile", "rakefile", "procfile"]

/-- Embeds `CTAGS_KINDS` from `constants.py`. -/
def CTAGS_KINDS : List String :=
  ["class", "method", "function",
   "struct", "enum", "union", "interface", "typedef", "type",
   "namespace", "module", "package"]

/-- Embeds the `LANGUAGES_HEURISTICS` table from `constants.py`. -/
def LANGUAGES_HEURISTICS : SupportedLanguage → LanguagesHeuristics
  | .PY =>
    { manifests := ["requirements.txt", "pyproject.toml", "setup.py", "pipfile", "tox.ini"]
      extensions := [".py", ".pyi"]
      signals := ["__init__", "__main__", "main", "app", "wsgi", "asgi", "manage",
                  "run", "application", "server"]
      ignore_dirs := ["tests", "test", "mocks", "examples", "benchmarks", "scripts",
                      "htmlcov", "docs"] }
  | .JS =>
    { manifests := ["package.json", "deno.json", "yarn.lock", "pnpm-lock.yaml",
                    "next.config.js", "vite.config.js", "tsconfig.json"]
      extensions := [".js", ".jsx", ".ts", ".tsx", ".mjs", ".cjs", ".vue", ".velte", ".astro"]
      signals := ["index", "main", "app", "server", "entry", "bootstrap", "start"]
      ignore_dirs := ["tests", "__tests__", "mocks", "stories", "examples", "e2e",
                      "cypress", "docs", "spec"] }
  | .JAVA =>
    { manifests := ["pom.xml", "build.gradle", "build.gradle.kts", "settings.gradle",
                    "mvnw", "gradlew"]
      extensions := [".java", ".kt", ".scala", ".groovy"]
      signals := ["main", "application", "app"]
      ignore_dirs := ["test", "tests", "mocks", "examples", "samples", "docs", "it"] }
  | .CS =>
    { manifests := [".csproj", ".sln", ".fsproj", ".vbproj", "global.json", "nuget.config"]
      extensions := [".cs", ".fs", ".vb", ".cshtml", ".razor"]
      signals := ["program", "startup", "app", "main", "module1"]
      ignore_dirs := ["tests", "test", "mocks", "examples", "spec", "samples", "TestResults"] }
  | .GO =>
    { manifests := ["go.mod", "go.sum", "go.work", "main.go"]
      extensions := [".go"]
      signals := ["main", "server", "app", "cmd", "doc"]
      ignore_dirs := ["tests", "test", "examples", "vendor", "testdata", "mocks", "bench"] }
  | .CPP =>
    { manifests := ["cmakelists.txt", "makefile", "configure.ac", "meson.build",
                    "conanfile.txt", "vcpkg.json", ".gitmodules"]
      extensions := [".c", ".cpp", ".h", ".hpp", ".cc", ".hh", ".cxx", ".hxx", ".m", ".mm"]
      signals := ["main", "app", "application"]
      ignore_dirs := ["tests", "test", "mocks", "examples", "samples", "third_party",
                      "vendor", "external"] }

/-- Embeds the base-score table inside `calculate_significance`
(`core/categorization.py`). -/
def baseScore : FileCategory → Int
  | .CONTEXT => 1000
  | .MANIFEST => 80
  | .SIGNAL => 60
  | .SOURCE => 50
  | .CHAPTER_FILE => 0
  | .UNKNOWN => 0

/-- The universal-context test of `calculate_significance`
(`core/categorization.py`): name in the fixed list, or starting with
`readme`, or extension `.md`. -/
def ctxMatch (m : FileMetadata) : Bool :=
  decide (m.name_lower ∈ UNIVERSAL_CONTEXT_FILES)
    || pyStartsWith m.name_lower "readme"
    || decide (m.suffix_lower = ".md")

/-- The manifest test of `calculate_significance`: lower-cased name or
lower-cased extension in the language's manifest set. -/
def manifestMatch (h : LanguagesHeuristics) (m : FileMetadata) : Bool :=
  decide (m.name_lower ∈ h.manifests) || decide (m.suffix_lower ∈ h.manifests)

/-- The signal test of `calculate_significance`: lower-cased stem in the
signal set and lower-cased extension in the source-extension set. -/
def signalMatch (h : LanguagesHeuristics) (m : FileMetadata) : Bool :=
  decide (m.stem_lower ∈ h.signals) && decide (m.suffix_lower ∈ h.extensions)

/-- The source test of `calculate_significance`: lower-cased extension in the
source-extension set. -/
def sourceMatch (h : LanguagesHeuristics) (m : FileMetadata) : Bool :=
  decide (m.suffix_lower ∈ h.extensions)

/-- The ignored-directory test of `calculate_significance`: some entry of the
language's ignore set occurs verbatim among the lower-cased ancestor
directory names. -/
def ignoreMatch (h : LanguagesHeuristics) (m : FileMetadata) : Bool :=
  h.ignore_dirs.any (fun ignore_dir => m.file_parents.contains ignore_dir)

/-- Embeds `calculate_significance` from `core/categorization.py`: category
assignment via the if/elif chain, then the depth penalty, then the
ignored-directory penalty.  (The Python base-score dict has no CHAPTER_FILE
key; that category is unreachable here, the chain only ever assigns the five
others.) -/
def calculate_significance (file_path : PyPath) (language : SupportedLanguage) :
    FileMetadata :=
  let heuristics := LANGUAGES_HEURISTICS language
  let meta : FileMetadata := { file_path := file_path }
  let category : FileCategory :=
    if ctxMatch meta then FileCategory.CONTEXT
    else if manifestMatch heuristics meta then FileCategory.MANIFEST
    else if signalMatch heuristics meta then FileCategory.SIGNAL
    else if sourceMatch heuristics meta then FileCategory.SOURCE
    else FileCategory.UNKNOWN
  let score0 : Int := baseScore category
  let score1 : Int :=
    if meta.depth > 1 then score0 - (meta.depth - 1 : Nat) * 5 else score0
  let score2 : Int :=
    if ignoreMatch heuristics meta then score1 - 100 else score1
  { file_path := file_path, category := category, score := score2 }

/-- Embeds `TokenLimits` from `core/tokens.py`; the Python float ratios are
modelled as rationals and the ratio dict as a partial function. -/
structure TokenLimits where
  max_total : Int
  ratios : FileCategory → Option ℚ

/-- Embeds Python `int(...)` applied to a number: truncation toward zero. -/
def pyInt (q : ℚ) : Int := if 0 ≤ q then ⌊q⌋ else ⌈q⌉

/-- Embeds the `initial_allocations` dict comprehension of
`PooledTokenBudget.__init__` together with the `.get(category, 0)` of
`start_category` (`core/tokens.py`). -/
def initialAllocation (limits : TokenLimits) (c : FileCategory) : Int :=
  match limits.ratios c with
  | some r => pyInt (limits.max_total * r)
  | none => 0

/-- Embeds the default `TokenLimits()` of `core/tokens.py`. -/
def defaultTokenLimits : TokenLimits where
  max_total := 200000
  ratios := fun c =>
    match c with
    | .CONTEXT => some (1 / 10)
    | .MANIFEST => some (1 / 20)
    | .SIGNAL => some (1 / 20)
    | .SOURCE => some (2 / 5)
    | _ => none

/-- Embeds `PooledTokenBudget` from `core/tokens.py`: the limits plus the
mutable `pool` field, threaded explicitly. -/
structure PooledTokenBudget where
  limits : TokenLimits
  pool : Int

/-- Embeds `PooledTokenBudget.__init__`: the pool starts at zero. -/
def PooledTokenBudget.init (limits : TokenLimits) : PooledTokenBudget :=
  ⟨limits, 0⟩

/-- Embeds `PooledTokenBudget.start_category`: add the category's initial
allocation to the pool. -/
def PooledTokenBudget.start_category (b : PooledTokenBudget) (category : FileCategory) :
    PooledTokenBudget :=
  { b with pool := b.pool + initialAllocation b.limits category }

/-- Embeds `PooledTokenBudget.can_afford`: true iff the pool is at least
`count`. -/
def PooledTokenBudget.can_afford (b : PooledTokenBudget) (count : Int) : Bool :=
  b.pool ≥ count

/-- Embeds `PooledTokenBudget.spend`: unconditionally subtract `count`. -/
def PooledTokenBudget.spend (b : PooledTokenBudget) (count : Int) : PooledTokenBudget :=
  { b with pool := b.pool - count }

/-- The strict version of the comparator realised by the Python sort key
`(score, -depth)` of `process_files`: `keyGT b a` holds iff `b`'s key is
lexicographically strictly greater than `a`'s. -/
def keyGT (b a : FileMetadata) : Bool :=
  if a.score < b.score then true
  else if b.score = a.score then decide (b.depth < a.depth)
  else false

/-- The non-strict comparator of the same key: `sortKeyGE a b` holds iff `a`'s
key `(score, -depth)` is lexicographically at least `b`'s, so `a` may precede
`b` in the descending sort. -/
def sortKeyGE (a b : FileMetadata) : Bool :=
  if b.score < a.score then true
  else if a.score = b.score then decide (a.depth ≤ b.depth)
  else false

/-- Stable insertion: the new element passes only elements with strictly
greater keys, so original order is kept among equal keys, as in Python's
stable `list.sort`. -/
def stableInsert (a : FileMetadata) : List FileMetadata → List FileMetadata
  | [] => [a]
  | b :: bs => if keyGT b a then b :: stableInsert a bs else a :: b :: bs

/-- Embeds the in-place `files_in_category.sort(key=lambda f: (f.score,
-f.depth), reverse=True)` of `process_files` (`core/processing.py`): the
unique stable sort, descending on `(score, -depth)`. -/
def pySort : List FileMetadata → List FileMetadata
  | [] => []
  | a :: l => stableInsert a (pySort l)

/-- What the modelled filesystem reports for one absolute path: the
`full_path.exists()` check fails, `reader.read_file` raises `FileReadError`,
or the file's text is returned. -/
inductive FsResult where
  | missing
  | readError
  | content (text : String)

/-- The JSON object a ctags stdout line decodes to, as far as
`_parse_tag_line` inspects it: the three `tag.get(...)` fields, each possibly
absent. -/
structure JsonTag where
  path : Option String
  kind : Option String
  name : Option String

/-- Oracles for the effectful collaborators: the project root, the filesystem
reader, the JSON decoder (`json.loads`, `none` being `JSONDecodeError`), the
ctags subprocess (argument paths to stdout lines, `none` when `Popen`
raises), the path helper `_get_rel_path_str_from_str` partially applied to the
root, and the token counter. -/
structure Env where
  root : PyPath
  read : PyPath → FsResult
  jparse : String → Option JsonTag
  tool : List String → Option (List String)
  rel : String → String
  counter : String → Int

/-- Embeds `str(root / file_meta.file_path)` as used by both extractors. -/
def fullPathStr (env : Env) (f : FileMetadata) : String :=
  pathStr (env.root ++ f.file_path)

/-- Embeds the per-file loop of `process_readable_files_for_category`
(`core/processing.py`): a missing file is skipped, a `FileReadError` is
logged as a warning and skipped, otherwise the text's token count is checked;
an affordable file is spent and appended and the first unaffordable file ends
the loop. -/
def readableLoop (env : Env) (category : FileCategory) :
    List FileMetadata → PooledTokenBudget → List ProcessedFile →
    PooledTokenBudget × List ProcessedFile
  | [], b, acc => (b, acc)
  | file_meta :: rest, b, acc =>
    match env.read (env.root ++ file_meta.file_path) with
    | .missing => readableLoop env category rest b acc
    | .readError => readableLoop env category rest b acc
    | .content text =>
      let token_usage := env.counter text
      if b.can_afford token_usage then
        readableLoop env category rest (b.spend token_usage)
          (acc ++ [⟨pathStr file_meta.file_path, category.value, text⟩])
      else (b, acc)

/-- Embeds `process_readable_files_for_category` from `core/processing.py`:
start the category's allocation, then run the per-file loop on the passed-in
(initially empty) accumulator. -/
def process_readable_files_for_category (env : Env) (files : List FileMetadata)
    (b : PooledTokenBudget) (category : FileCategory) :
    PooledTokenBudget × List ProcessedFile :=
  readableLoop env category files (b.start_category category) []

/-- Embeds Python `str.strip()`: whitespace removed from both ends. -/
def pyStrip (s : String) : String :=
  ⟨((s.data.dropWhile Char.isWhitespace).reverse.dropWhile Char.isWhitespace).reverse⟩

/-- Python truthiness of an optional string (`if not path` in
`_parse_tag_line`): falsy when absent or empty. -/
def pyFalsy : Option String → Bool
  | none => true
  | some s => s = ""

/-- The `kind not in CTAGS_KINDS` test of `_parse_tag_line`, on a possibly
missing kind (a missing kind is never in the set). -/
def kindAllowed : Option String → Bool
  | some k => CTAGS_KINDS.contains k
  | none => false

/-- Embeds `_parse_tag_line` from `core/ctags_extraction.py`, with the JSON
decoding factored into the oracle input: reject a decode failure, a falsy path
or name, or a kind outside `CTAGS_KINDS`. -/
def parse_tag_line (tag : Option JsonTag) : Option Ctag :=
  match tag with
  | none => none
  | some t =>
    if pyFalsy t.path || pyFalsy t.name || !kindAllowed t.kind then none
    else some ⟨t.path.getD "", t.kind.getD "", t.name.getD ""⟩

/-- Embeds `format_tag` from `core/ctags_extraction.py`. -/
def format_tag (kind name : String) : String := kind ++ " " ++ name

/-- State of the stdout-parsing loop inside `_run_ctags`. -/
structure TagState where
  current_file_path : Option String
  current_file_tags : List String
  processed_files : List ProcessedFile
  current_index : Nat
deriving DecidableEq, Repr

/-- The group flush of `_run_ctags`: when `current_file_path` is truthy, the
accumulated tag lines become one SOURCE `ProcessedFile` under the
root-relative path. -/
def flushTags (env : Env) (st : TagState) : List ProcessedFile :=
  match st.current_file_path with
  | some p =>
    if p = "" then st.processed_files
    else
      st.processed_files ++
        [⟨env.rel p, FileCategory.SOURCE.value,
          String.intercalate "\n" st.current_file_tags⟩]
  | none => st.processed_files

/-- One non-EOF stdout line of `_run_ctags`: strip it, skip it when blank or
unparsable, and otherwise either extend the current group or — on a path
change — flush the previous group, advance `current_index`, and open a new
group. -/
def tagLineStep (env : Env) (st : TagState) (line : String) : TagState :=
  let l := pyStrip line
  if l = "" then st
  else
    match parse_tag_line (env.jparse l) with
    | none => st
    | some ctag =>
      if some ctag.path ≠ st.current_file_path then
        { current_file_path := some ctag.path
          current_file_tags := [format_tag ctag.kind ctag.name]
          processed_files := flushTags env st
          current_index := st.current_index + 1 }
      else
        { st with
          current_file_tags := st.current_file_tags ++ [format_tag ctag.kind ctag.name] }

/-- The stdout loop of `_run_ctags`; the Bool is false when the defensive EOF
check (`line == ""` before stripping) fired, which makes `_run_ctags` return
`(None, current_index)`. -/
def tagLoop (env : Env) : List String → TagState → TagState × Bool
  | [], st => (st, true)
  | line :: rest, st =>
    if line = "" then (st, false)
    else tagLoop env rest (tagLineStep env st line)

/-- Embeds `_run_ctags` from `core/ctags_extraction.py` as invoked on the
SOURCE category: slice the batch `files[start : start + limit]`, hand the
absolute paths to the subprocess oracle, group its stdout tags by consecutive
path, and return the flushed groups with the updated `current_index` — or
`(none, index)` when the subprocess failed or the EOF check fired. -/
def run_ctags (env : Env) (files : List FileMetadata) (start : Nat)
    (limit : Nat := 100) : Option (List ProcessedFile) × Nat :=
  let file_paths := ((files.drop start).take limit).map (fullPathStr env)
  match env.tool file_paths with
  | none => (none, start)
  | some lines =>
    match tagLoop env lines ⟨none, [], [], start⟩ with
    | (st, false) => (none, st.current_index)
    | (st, true) => (some (flushTags env st), st.current_index)

/-- The per-file affordability loop inside `extract_ctags_for_source_files`;
the Bool is the `budget_exhausted` flag, set by the first unaffordable file,
which is dropped. -/
def spendLoop (counter : String → Int) :
    List ProcessedFile → PooledTokenBudget → List ProcessedFile →
    PooledTokenBudget × List ProcessedFile × Bool
  | [], b, acc => (b, acc, false)
  | file :: rest, b, acc =>
    let token_usage := counter file.content
    if b.can_afford token_usage then
      spendLoop counter rest (b.spend token_usage) (acc ++ [file])
    else (b, acc, true)

/-- The `while True` batching loop of `extract_ctags_for_source_files`: break
on a failed or empty batch, spend the batch's files until the budget is
exhausted, and break when the budget is exhausted or the new start index has
reached the end of the list.  The loop is written with explicit fuel; a
non-empty batch strictly advances the index, so `files.length + 1` fuel always
reaches the break. -/
def extractLoop (env : Env) (files : List FileMetadata) :
    Nat → Nat → PooledTokenBudget → List ProcessedFile →
    PooledTokenBudget × List ProcessedFile
  | 0, _, b, acc => (b, acc)
  | fuel + 1, start, b, acc =>
    match run_ctags env files start with
    | (none, _) => (b, acc)
    | (some [], _) => (b, acc)
    | (some (file :: rest), start1) =>
      let fully := files.length ≤ start1
      match spendLoop env.counter (file :: rest) b acc with
      | (b1, acc1, exhausted) =>
        if exhausted || fully then (b1, acc1)
        else extractLoop env files fuel start1 b1 acc1

/-- Embeds `extract_ctags_for_source_files` from `core/ctags_extraction.py`:
start the category's allocation, then run the batching loop from index 0 on an
empty accumulator. -/
def extract_ctags_for_source_files (env : Env) (files : List FileMetadata)
    (b : PooledTokenBudget) (category : FileCategory) :
    PooledTokenBudget × List ProcessedFile :=
  extractLoop env files (files.length + 1) 0 (b.start_category category) []

/-- Embeds the `processing_order` list of `process_files`
(`core/processing.py`). -/
def processing_order : List FileCategory :=
  [FileCategory.CONTEXT, FileCategory.MANIFEST, FileCategory.SIGNAL, FileCategory.SOURCE]

/-- State threaded through `process_files`: the category map (whose lists the
Python code sorts in place), the shared budget, and the accumulated
per-category results in insertion order. -/
structure OrchestratorState where
  files_by_category : FileCategory → List FileMetadata
  budget : PooledTokenBudget
  results : List (FileCategory × List ProcessedFile)

/-- One iteration of the category loop of `process_files`
(`core/processing.py`): skip an empty category entirely; otherwise sort its
list in place by `(score, -depth)` descending and dispatch to the ctags
extractor (SOURCE) or the readable-file extractor (the others), recording the
category's output. -/
def processStep (env : Env) (st : OrchestratorState) (category : FileCategory) :
    OrchestratorState :=
  let files_in_category := st.files_by_category category
  if files_in_category = [] then st
  else
    let sorted := pySort files_in_category
    let fbc1 := fun c => if c = category then sorted else st.files_by_category c
    let dispatched :=
      if category = FileCategory.SOURCE then
        extract_ctags_for_source_files env sorted st.budget category
      else
        process_readable_files_for_category env sorted st.budget category
    { files_by_category := fbc1
      budget := dispatched.1
      results := st.results ++ [(category, dispatched.2)] }

/-- Embeds `process_files` from `core/processing.py`, the in-place list
mutation modelled by returning the final category map alongside the budget and
the per-category result list. -/
def process_files (env : Env) (files_by_category : FileCategory → List FileMetadata)
    (b : PooledTokenBudget) : OrchestratorState :=
  processing_order.foldl (processStep env) ⟨files_by_category, b, []⟩

/-- Whether the modelled filesystem yields text for a file: the file exists
and `read_file` does not raise, i.e. the `readableLoop` case that is neither
skip branch. -/
def keepsFile (env : Env) (f : FileMetadata) : Bool :=
  match env.read (env.root ++ f.file_path) with
  | .content _ => true
  | _ => false

/-! Concrete fixtures used by the closed counterexample and witness
theorems below. -/

/-- A `TokenLimits` with no ratios at all (every allocation is 0). -/
def limitsNone : TokenLimits := ⟨0, fun _ => none⟩

/-- Environment for the batching counterexample: two SOURCE files `a` and `b`;
the tagging tool emits one `function` tag for `b` and none for `a`, whatever
the batch; every produced file costs one token. -/
def envC1 : Env where
  root := []
  read := fun _ => FsResult.missing
  jparse := fun l =>
    if l = "Lb" then some ⟨some "b", some "function", some "f"⟩ else none
  tool := fun batch =>
    if batch = ["a", "b"] then some ["Lb"]
    else if batch = ["b"] then some ["Lb"]
    else some []
  rel := fun s => s
  counter := fun _ => 1

/-- The two SOURCE files of the batching counterexample. -/
def filesC1 : List FileMetadata :=
  [{ file_path := ["a"], category := FileCategory.SOURCE, score := 50 },
   { file_path := ["b"], category := FileCategory.SOURCE, score := 50 }]

/-- A concrete budget: 1000 total, CONTEXT ratio 1/10 (allocation 100) and
MANIFEST ratio 1/20 (allocation 50). -/
def budgetW : PooledTokenBudget :=
  ⟨⟨1000, fun c =>
      match c with
      | .CONTEXT => some (1 / 10)
      | .MANIFEST => some (1 / 20)
      | _ => none⟩, 0⟩

/-- A budget whose pool has been driven negative. -/
def budgetNeg : PooledTokenBudget := ⟨limitsNone, -3⟩

/-- A quiet environment: no files exist, the tagging tool fails to launch. -/
def envW : Env where
  root := []
  read := fun _ => FsResult.missing
  jparse := fun _ => none
  tool := fun _ => none
  rel := fun s => s
  counter := fun _ => 0

/-- A category map with two out-of-order CONTEXT entries and one SOURCE
entry, everything else empty. -/
def fbcW : FileCategory → List FileMetadata := fun c =>
  match c with
  | .CONTEXT =>
    [{ file_path := ["a", "c.md"], category := FileCategory.CONTEXT, score := 990 },
     { file_path := ["b.md"], category := FileCategory.CONTEXT, score := 995 }]
  | .SOURCE => [{ file_path := ["m.py"], category := FileCategory.SOURCE, score := 55 }]
  | _ => []

/-- Environment for the stop-on-exhaustion witness: every file reads as the
two-character text `ab`, the tagging tool emits one tag each for `p1` and
`p2`, and the token counter charges the character length. -/
def envC2 : Env where
  root := []
  read := fun _ => FsResult.content "ab"
  jparse := fun l =>
    if l = "L1" then some ⟨some "p1", some "function", some "f"⟩
    else if l = "L2" then some ⟨some "p2", some "function", some "g"⟩
    else none
  tool := fun _ => some ["L1", "L2"]
  rel := fun s => s
  counter := fun s => (s.length : Int)

/-- Two CONTEXT files for the stop-on-exhaustion witness. -/
def filesC2 : List FileMetadata :=
  [{ file_path := ["x"], category := FileCategory.CONTEXT, score := 0 },
   { file_path := ["y"], category := FileCategory.CONTEXT, score := 0 }]

/-! Helper lemmas about the stable sort of `process_files`. -/

theorem keyGT_iff (b a : FileMetadata) :
    keyGT b a = true ↔ a.score < b.score ∨ (b.score = a.score ∧ b.depth < a.depth) := by
  unfold keyGT
  split_ifs with h1 h2 <;> simp [*]

theorem sortKeyGE_iff (a b : FileMetadata) :
    sortKeyGE a b = true ↔ b.score < a.score ∨ (a.score = b.score ∧ a.depth ≤ b.depth) := by
  unfold sortKeyGE
  split_ifs with h1 h2 <;> simp [*]

theorem keyGT_false_sortKeyGE {a b : FileMetadata} (h : keyGT b a = false) :
    sortKeyGE a b = true := by
  rw [sortKeyGE_iff]
  have h2 : ¬ (keyGT b a = true) := by simp [h]
  rw [keyGT_iff] at h2
  omega

theorem keyGT_true_sortKeyGE {a b : FileMetadata} (h : keyGT b a = true) :
    sortKeyGE b a = true := by
  rw [sortKeyGE_iff]
  rw [keyGT_iff] at h
  omega

theorem sortKeyGE_trans {a b c : FileMetadata} (h1 : sortKeyGE a b = true)
    (h2 : sortKeyGE b c = true) : sortKeyGE a c = true := by
  rw [sortKeyGE_iff] at h1 h2 ⊢
  omega

theorem stableInsert_perm (a : FileMetadata) (l : List FileMetadata) :
    (stableInsert a l).Perm (a :: l) := by
  induction l with
  | nil => simp [stableInsert]
  | cons b bs ih =>
    unfold stableInsert
    split
    · exact ((ih.cons b).trans (List.Perm.swap a b bs)).symm.symm
    · exact List.Perm.refl _

theorem pySort_perm (l : List FileMetadata) : (pySort l).Perm l := by
  induction l with
  | nil => exact List.Perm.refl _
  | cons a l ih => exact (stableInsert_perm a (pySort l)).trans (ih.cons a)

theorem stableInsert_pairwise (a : FileMetadata) (l : List FileMetadata)
    (h : l.Pairwise (fun x y => sortKeyGE x y = true)) :
    (stableInsert a l).Pairwise (fun x y => sortKeyGE x y = true) := by
  induction l with
  | nil => simp [stableInsert]
  | cons b bs ih =>
    rw [List.pairwise_cons] at h
    by_cases hgt : keyGT b a = true
    · have heq : stableInsert a (b :: bs) = b :: stableInsert a bs := by
        simp [stableInsert, hgt]
      rw [heq, List.pairwise_cons]
      refine ⟨?_, ih h.2⟩
      intro x hx
      have hx2 := (stableInsert_perm a bs).mem_iff.mp hx
      rcases List.mem_cons.mp hx2 with rfl | hx3
      · exact keyGT_true_sortKeyGE hgt
      · exact h.1 x hx3
    · have hfalse : keyGT b a = false := by simpa using hgt
      have heq : stableInsert a (b :: bs) = a :: b :: bs := by
        simp [stableInsert, hfalse]
      rw [heq, List.pairwise_cons, List.pairwise_cons]
      have hab := keyGT_false_sortKeyGE hfalse
      refine ⟨?_, h.1, h.2⟩
      intro x hx
      rcases List.mem_cons.mp hx with rfl | hx3
      · exact hab
      · exact sortKeyGE_trans hab (h.1 x hx3)

theorem pySort_pairwise (l : List FileMetadata) :
    (pySort l).Pairwise (fun x y => sortKeyGE x y = true) := by
  induction l with
  | nil => simp [pySort]
  | cons a l ih => exact stableInsert_pairwise a (pySort l) ih

theorem pySort_eq_nil_iff (l : List FileMetadata) : pySort l = [] ↔ l = [] := by
  constructor
  · intro h
    have := (pySort_perm l).length_eq
    rw [h] at this
    exact List.length_eq_zero.mp this.symm
  · intro h
    subst h
    rfl

/-! The claim theorems. -/

/-- C4: the claim states that the ignored-directory penalty applies whenever
an ancestor directory name matches the language's ignore set
case-insensitively.  The code lower-cases the ancestors but compares them
verbatim with the ignore entries, so the C# profile's entry `TestResults` —
which contains upper-case letters — can never match: for `TestResults/a.cs`
under the C# profile an ancestor matches the ignore set case-insensitively,
yet the score is 45 (SOURCE base 50 minus depth 5) instead of the claimed
50 − 5 − 100 = −55. -/
theorem C4_ignore_penalty_not_case_insensitive :
    ((LANGUAGES_HEURISTICS SupportedLanguage.CS).ignore_dirs.any
        (fun d => pyLower d == pyLower "TestResults")) = true
    ∧ (calculate_significance ["TestResults", "a.cs"] SupportedLanguage.CS).category
        = FileCategory.SOURCE
    ∧ (calculate_significance ["TestResults", "a.cs"] SupportedLanguage.CS).score = 45
    ∧ (calculate_significance ["TestResults", "a.cs"] SupportedLanguage.CS).score
        ≠ 50 - 5 - 100 := by
  decide

/-- C6: category assignment is the first-match-wins priority chain CONTEXT,
MANIFEST, SIGNAL, SOURCE, UNKNOWN, with the conditions exactly as claimed; in
particular an earlier rule's match overrides all later rules. -/
theorem C6_category_priority_chain (p : PyPath) (lang : SupportedLanguage) :
    ((calculate_significance p lang).category = FileCategory.CONTEXT
      ↔ ctxMatch { file_path := p } = true)
    ∧ ((calculate_significance p lang).category = FileCategory.MANIFEST
      ↔ ctxMatch { file_path := p } = false
        ∧ manifestMatch (LANGUAGES_HEURISTICS lang) { file_path := p } = true)
    ∧ ((calculate_significance p lang).category = FileCategory.SIGNAL
      ↔ ctxMatch { file_path := p } = false
        ∧ manifestMatch (LANGUAGES_HEURISTICS lang) { file_path := p } = false
        ∧ signalMatch (LANGUAGES_HEURISTICS lang) { file_path := p } = true)
    ∧ ((calculate_significance p lang).category = FileCategory.SOURCE
      ↔ ctxMatch { file_path := p } = false
        ∧ manifestMatch (LANGUAGES_HEURISTICS lang) { file_path := p } = false
        ∧ signalMatch (LANGUAGES_HEURISTICS lang) { file_path := p } = false
        ∧ sourceMatch (LANGUAGES_HEURISTICS lang) { file_path := p } = true)
    ∧ ((calculate_significance p lang).category = FileCategory.UNKNOWN
      ↔ ctxMatch { file_path := p } = false
        ∧ manifestMatch (LANGUAGES_HEURISTICS lang) { file_path := p } = false
        ∧ signalMatch (LANGUAGES_HEURISTICS lang) { file_path := p } = false
        ∧ sourceMatch (LANGUAGES_HEURISTICS lang) { file_path := p } = false) := by
  unfold calculate_significance
  cases hc : ctxMatch { file_path := p } <;>
    cases hm : manifestMatch (LANGUAGES_HEURISTICS lang) { file_path := p } <;>
      cases hs : signalMatch (LANGUAGES_HEURISTICS lang) { file_path := p } <;>
        cases ho : sourceMatch (LANGUAGES_HEURISTICS lang) { file_path := p } <;>
          simp [hc, hm, hs, ho]

/-- C3: the pooled budget accumulates additively: `start_category` adds
exactly the floor of `max_total * ratio` (0 when the category has no ratio),
never decreases the pool when all ratios are non-negative, and unused
allocation carries forward across categories — start, spend, start leaves
`pool + alloc(c1) - s + alloc(c2)`, so the 100-allocation / 30-spent /
50-allocation scenario yields a pool of exactly 120, not 50. -/
theorem C3_pooled_budget_accumulates (b : PooledTokenBudget)
    (c c1 c2 : FileCategory) (s : Int) (r : ℚ)
    (hmax : 0 ≤ b.limits.max_total) :
    ((b.limits.ratios c = some r ∧ 0 ≤ r) →
      (b.start_category c).pool = b.pool + ⌊(b.limits.max_total : ℚ) * r⌋)
    ∧ (b.limits.ratios c = none → (b.start_category c).pool = b.pool)
    ∧ ((∀ c0 r0, b.limits.ratios c0 = some r0 → 0 ≤ r0) →
      b.pool ≤ (b.start_category c).pool)
    ∧ ((((b.start_category c1).spend s).start_category c2).pool
        = b.pool + initialAllocation b.limits c1 - s + initialAllocation b.limits c2)
    ∧ ((b.pool = 0 ∧ initialAllocation b.limits c1 = 100
          ∧ initialAllocation b.limits c2 = 50 ∧ s = 30) →
      (((b.start_category c1).spend s).start_category c2).pool = 120) := by
  refine ⟨?_, ?_, ?_, ?_, ?_⟩
  · rintro ⟨hr, hr0⟩
    have hq : (0 : ℚ) ≤ (b.limits.max_total : ℚ) * r :=
      mul_nonneg (by exact_mod_cast hmax) hr0
    simp [PooledTokenBudget.start_category, initialAllocation, hr, pyInt, hq]
  · intro hr
    simp [PooledTokenBudget.start_category, initialAllocation, hr]
  · intro hall
    have halloc : 0 ≤ initialAllocation b.limits c := by
      unfold initialAllocation
      cases hc : b.limits.ratios c with
      | none => simp
      | some r0 =>
        have hr0 := hall c r0 hc
        have hq : (0 : ℚ) ≤ (b.limits.max_total : ℚ) * r0 :=
          mul_nonneg (by exact_mod_cast hmax) hr0
        simp only [pyInt, if_pos hq]
        exact Int.floor_nonneg.mpr hq
    simp only [PooledTokenBudget.start_category]
    omega
  · simp only [PooledTokenBudget.start_category, PooledTokenBudget.spend]
  · rintro ⟨h0, h1, h2, h3⟩
    simp only [PooledTokenBudget.start_category, PooledTokenBudget.spend, h0, h1, h2, h3]
    omega

/-- Witness for C3: at the concrete `budgetW` (allocation 100 for CONTEXT, 50
for MANIFEST) the start/spend-30/start scenario leaves a pool of exactly
120. -/
theorem C3_pooled_budget_accumulates_witness :
    (((budgetW.start_category FileCategory.CONTEXT).spend 30).start_category
        FileCategory.MANIFEST).pool = 120 :=
  (C3_pooled_budget_accumulates budgetW FileCategory.CONTEXT FileCategory.CONTEXT
      FileCategory.MANIFEST 30 (1 / 10) (by norm_num [budgetW])).2.2.2.2
    (by refine ⟨rfl, ?_, ?_, rfl⟩ <;> norm_num [budgetW, initialAllocation, pyInt])

/-- C5: `can_afford n` is true exactly when the pool is at least `n`; `spend`
subtracts unconditionally, so an unchecked spend larger than the pool drives
the pool negative; and once the pool is negative every `can_afford` check for
a non-negative count fails. -/
theorem C5_can_afford_and_unchecked_spend (b : PooledTokenBudget) (n : Int) :
    (b.can_afford n = true ↔ n ≤ b.pool)
    ∧ ((b.spend n).pool = b.pool - n)
    ∧ (b.pool < n → (b.spend n).pool < 0)
    ∧ (b.pool < 0 → 0 ≤ n → b.can_afford n = false) := by
  refine ⟨?_, rfl, ?_, ?_⟩
  · simp [PooledTokenBudget.can_afford]
  · intro h
    simp only [PooledTokenBudget.spend]
    omega
  · intro h1 h2
    simp only [PooledTokenBudget.can_afford, ge_iff_le, decide_eq_false_iff_not, not_le]
    omega

/-- Witness for C5: a pool of −3 fails `can_afford 0`, and spending 3 from a
zero pool leaves a negative pool. -/
theorem C5_can_afford_and_unchecked_spend_witness :
    budgetNeg.can_afford 0 = false ∧ (budgetNeg.spend 0).pool < 0 :=
  ⟨(C5_can_afford_and_unchecked_spend budgetNeg 0).2.2.2 (by decide) (by decide),
   (C5_can_afford_and_unchecked_spend budgetNeg 0).2.2.1 (by decide)⟩

/-- C9: a missing file or a failed read never stops the readable-file
extractor and never spends tokens or appends output: the per-file loop
computes exactly what it computes on the sublist of files whose reads
succeed, so processing always continues with the next file and only the
budget check ends the category early. -/
theorem C9_missing_and_read_errors_skipped (env : Env) (category : FileCategory)
    (files : List FileMetadata) (b : PooledTokenBudget) (acc : List ProcessedFile) :
    readableLoop env category files b acc
      = readableLoop env category (files.filter (keepsFile env)) b acc := by
  induction files generalizing b acc with
  | nil => rfl
  | cons f rest ih =>
    cases hr : env.read (env.root ++ f.file_path) with
    | missing =>
      have hk : keepsFile env f = false := by simp [keepsFile, hr]
      simp only [readableLoop, hr, List.filter_cons, hk, if_neg, Bool.false_eq_true,
        ite_false]
      exact ih b acc
    | readError =>
      have hk : keepsFile env f = false := by simp [keepsFile, hr]
      simp only [readableLoop, hr, List.filter_cons, hk, Bool.false_eq_true, ite_false]
      exact ih b acc
    | content text =>
      have hk : keepsFile env f = true := by simp [keepsFile, hr]
      simp only [readableLoop, hr, List.filter_cons, hk, ite_true]
      split
      · exact ih _ _
      · rfl


theorem readableLoop_cutoff (env : Env) (category : FileCategory)
    (files : List FileMetadata) (text : FileMetadata → String)
    (b : PooledTokenBudget) (acc : List ProcessedFile) (N : Nat)
    (hread : ∀ f ∈ files, env.read (env.root ++ f.file_path) = FsResult.content (text f))
    (hN : N < files.length)
    (hafford : ∀ k, k < N →
      ((files.take k).map fun f => env.counter (text f)).sum
        + (files.map fun f => env.counter (text f)).getD k 0 ≤ b.pool)
    (hstop : b.pool < ((files.take N).map fun f => env.counter (text f)).sum
        + (files.map fun f => env.counter (text f)).getD N 0) :
    readableLoop env category files b acc
      = (⟨b.limits, b.pool - ((files.take N).map fun f => env.counter (text f)).sum⟩,
         acc ++ (files.take N).map fun f =>
           ⟨pathStr f.file_path, category.value, text f⟩) := by
  induction files generalizing N b acc with
  | nil => simp at hN
  | cons f rest ih =>
    have hcf : env.read (env.root ++ f.file_path) = FsResult.content (text f) :=
      hread f (by simp)
    cases N with
    | zero =>
      have hcost : b.pool < env.counter (text f) := by simpa using hstop
      simp only [readableLoop, hcf]
      rw [if_neg]
      · simp
      · simp only [PooledTokenBudget.can_afford, ge_iff_le, decide_eq_true_eq]
        omega
    | succ k =>
      have hc0 : env.counter (text f) ≤ b.pool := by simpa using hafford 0 (Nat.succ_pos k)
      simp only [readableLoop, hcf]
      rw [if_pos]
      swap
      · simp only [PooledTokenBudget.can_afford, ge_iff_le, decide_eq_true_eq]
        omega
      rw [ih (b.spend (env.counter (text f)))
        (acc ++ [({ path := pathStr f.file_path, type := category.value,
                    content := text f } : ProcessedFile)]) k
        (fun g hg => hread g (by simp [hg]))
        (by simpa using hN)
        (fun j hj => by
          have := hafford (j + 1) (by omega)
          simp only [List.take_succ_cons, List.map_cons, List.sum_cons,
            List.getD_cons_succ, PooledTokenBudget.spend] at this ⊢
          omega)
        (by
          have := hstop
          simp only [List.take_succ_cons, List.map_cons, List.sum_cons,
            List.getD_cons_succ, PooledTokenBudget.spend] at this ⊢
          omega)]
      simp only [PooledTokenBudget.spend, List.take_succ_cons, List.map_cons, List.sum_cons,
        List.append_assoc, List.singleton_append, Prod.mk.injEq, PooledTokenBudget.mk.injEq]
      refine ⟨⟨trivial, by omega⟩, trivial⟩


theorem spendLoop_cutoff (counter : String → Int) (pfs : List ProcessedFile)
    (b : PooledTokenBudget) (acc : List ProcessedFile) (k : Nat)
    (hk : k < pfs.length)
    (hafford : ∀ j, j < k →
      ((pfs.take j).map fun pf => counter pf.content).sum
        + (pfs.map fun pf => counter pf.content).getD j 0 ≤ b.pool)
    (hstop : b.pool < ((pfs.take k).map fun pf => counter pf.content).sum
        + (pfs.map fun pf => counter pf.content).getD k 0) :
    spendLoop counter pfs b acc
      = (⟨b.limits, b.pool - ((pfs.take k).map fun pf => counter pf.content).sum⟩,
         acc ++ pfs.take k, true) := by
  induction pfs generalizing k b acc with
  | nil => simp at hk
  | cons pf rest ih =>
    cases k with
    | zero =>
      have hcost : b.pool < counter pf.content := by simpa using hstop
      simp only [spendLoop]
      rw [if_neg]
      · simp
      · simp only [PooledTokenBudget.can_afford, ge_iff_le, decide_eq_true_eq]
        omega
    | succ k =>
      have hc0 : counter pf.content ≤ b.pool := by simpa using hafford 0 (Nat.succ_pos k)
      simp only [spendLoop]
      rw [if_pos]
      swap
      · simp only [PooledTokenBudget.can_afford, ge_iff_le, decide_eq_true_eq]
        omega
      rw [ih (b.spend (counter pf.content)) (acc ++ [pf]) k
        (by simpa using hk)
        (fun j hj => by
          have := hafford (j + 1) (by omega)
          simp only [List.take_succ_cons, List.map_cons, List.sum_cons,
            List.getD_cons_succ, PooledTokenBudget.spend] at this ⊢
          omega)
        (by
          have := hstop
          simp only [List.take_succ_cons, List.map_cons, List.sum_cons,
            List.getD_cons_succ, PooledTokenBudget.spend] at this ⊢
          omega)]
      simp only [PooledTokenBudget.spend, List.take_succ_cons, List.map_cons, List.sum_cons,
        List.append_assoc, List.singleton_append, Prod.mk.injEq, PooledTokenBudget.mk.injEq]
      refine ⟨⟨trivial, by omega⟩, trivial⟩

theorem extractLoop_stop (env : Env) (files : List FileMetadata)
    (fuel start : Nat) (b : PooledTokenBudget) (acc : List ProcessedFile)
    (pfs : List ProcessedFile) (start1 : Nat) (k : Nat)
    (hrun : run_ctags env files start = (some pfs, start1))
    (hk : k < pfs.length)
    (hafford : ∀ j, j < k →
      ((pfs.take j).map fun pf => env.counter pf.content).sum
        + (pfs.map fun pf => env.counter pf.content).getD j 0 ≤ b.pool)
    (hstop : b.pool < ((pfs.take k).map fun pf => env.counter pf.content).sum
        + (pfs.map fun pf => env.counter pf.content).getD k 0) :
    extractLoop env files (fuel + 1) start b acc
      = (⟨b.limits, b.pool - ((pfs.take k).map fun pf => env.counter pf.content).sum⟩,
         acc ++ pfs.take k) := by
  cases pfs with
  | nil => simp at hk
  | cons pf rest =>
    simp only [extractLoop, hrun]
    rw [spendLoop_cutoff env.counter (pf :: rest) b acc k hk hafford hstop]
    simp


/-- C2: stop on exhaustion.  In the readable-file extractor, when every file
of the ordered list exists and reads as `text f` and the category budget can
afford exactly the first `N` files and not the `(N+1)`-th, the category's
result is exactly those `N` files, in order, with exactly their tokens spent
and nothing after the cutoff.  In the symbol extractor, the first produced
file whose token count is unaffordable stops the whole extraction
immediately: only the affordable prefix of the batch is appended, only its
tokens are spent, and no further batch runs. -/
theorem C2_stop_on_exhaustion (env : Env) (category : FileCategory)
    (files : List FileMetadata) (text : FileMetadata → String)
    (b : PooledTokenBudget) (N : Nat)
    (srcFiles : List FileMetadata) (fuel start start1 k : Nat)
    (b2 : PooledTokenBudget) (acc2 pfs : List ProcessedFile) :
    ((∀ f ∈ files, env.read (env.root ++ f.file_path) = FsResult.content (text f)) →
      N < files.length →
      (∀ j, j < N →
        ((files.take j).map fun f => env.counter (text f)).sum
          + (files.map fun f => env.counter (text f)).getD j 0
            ≤ (b.start_category category).pool) →
      ((b.start_category category).pool
          < ((files.take N).map fun f => env.counter (text f)).sum
            + (files.map fun f => env.counter (text f)).getD N 0) →
      process_readable_files_for_category env files b category
        = (⟨b.limits, (b.start_category category).pool
              - ((files.take N).map fun f => env.counter (text f)).sum⟩,
           (files.take N).map fun f =>
             ⟨pathStr f.file_path, category.value, text f⟩))
    ∧ (run_ctags env srcFiles start = (some pfs, start1) →
      k < pfs.length →
      (∀ j, j < k →
        ((pfs.take j).map fun pf => env.counter pf.content).sum
          + (pfs.map fun pf => env.counter pf.content).getD j 0 ≤ b2.pool) →
      (b2.pool < ((pfs.take k).map fun pf => env.counter pf.content).sum
          + (pfs.map fun pf => env.counter pf.content).getD k 0) →
      extractLoop env srcFiles (fuel + 1) start b2 acc2
        = (⟨b2.limits, b2.pool - ((pfs.take k).map fun pf => env.counter pf.content).sum⟩,
           acc2 ++ pfs.take k)) := by
  constructor
  · intro h1 h2 h3 h4
    unfold process_readable_files_for_category
    have heq := readableLoop_cutoff env category files text (b.start_category category)
      [] N h1 h2 h3 h4
    rw [heq]
    rfl
  · intro h1 h2 h3 h4
    exact extractLoop_stop env srcFiles fuel start b2 acc2 pfs start1 k h1 h2 h3 h4

/-- Witness for C2: with two files of two tokens each and a post-allocation
pool of two tokens, exactly the first file is kept; with two produced symbol
files of ten tokens each and a pool of ten, the extraction stops after the
first. -/
theorem C2_stop_on_exhaustion_witness :
    process_readable_files_for_category envC2 filesC2 ⟨limitsNone, 2⟩ FileCategory.CONTEXT
      = (⟨limitsNone, 0⟩, [⟨"x", "context_file", "ab"⟩])
    ∧ extractLoop envC2 filesC2 1 0 ⟨limitsNone, 10⟩ []
      = (⟨limitsNone, 0⟩, [⟨"p1", "source_file", "function f"⟩]) := by
  constructor
  · have h := (C2_stop_on_exhaustion envC2 FileCategory.CONTEXT filesC2 (fun _ => "ab")
      ⟨limitsNone, 2⟩ 1 [] 0 0 0 0 ⟨limitsNone, 0⟩ [] []).1
      (by intro f hf; rfl) (by decide)
      (by intro j hj; have hj0 : j = 0 := by omega
          subst hj0; decide)
      (by decide)
    rw [h]
    rfl
  · have h := (C2_stop_on_exhaustion envC2 FileCategory.CONTEXT [] (fun _ => "")
      ⟨limitsNone, 0⟩ 0 filesC2 0 0 2 1 ⟨limitsNone, 10⟩ []
      [⟨"p1", "source_file", "function f"⟩, ⟨"p2", "source_file", "function g"⟩]).2
      (by decide) (by decide)
      (by intro j hj; have hj0 : j = 0 := by omega
          subst hj0; decide)
      (by decide)
    rw [h]
    rfl


theorem processStep_empty (env : Env) (st : OrchestratorState) (c : FileCategory)
    (h : st.files_by_category c = []) : processStep env st c = st := by
  simp [processStep, h]

theorem processStep_results_fst (env : Env) (st : OrchestratorState) (c : FileCategory) :
    (processStep env st c).results.map Prod.fst
      = st.results.map Prod.fst
        ++ (if st.files_by_category c = [] then [] else [c]) := by
  by_cases h : st.files_by_category c = [] <;> simp [processStep, h]

theorem processStep_fbc (env : Env) (st : OrchestratorState) (c c2 : FileCategory) :
    (processStep env st c).files_by_category c2
      = if c2 = c then pySort (st.files_by_category c2)
        else st.files_by_category c2 := by
  by_cases h : st.files_by_category c = []
  · rw [processStep_empty env st c h]
    by_cases h2 : c2 = c
    · subst h2
      rw [h]
      simp [pySort]
    · simp [h2]
  · simp only [processStep, h, ite_false, if_neg h]
    by_cases h2 : c2 = c
    · subst h2
      simp
    · simp [h2]

theorem processFold_results_fst (env : Env) (cats : List FileCategory)
    (st : OrchestratorState) (fbc0 : FileCategory → List FileMetadata)
    (hinv : ∀ c2, st.files_by_category c2 = [] ↔ fbc0 c2 = []) :
    ((cats.foldl (processStep env) st).results).map Prod.fst
      = st.results.map Prod.fst ++ cats.filter (fun c => !(fbc0 c).isEmpty) := by
  induction cats generalizing st with
  | nil => simp
  | cons c cs ih =>
    simp only [List.foldl_cons, List.filter_cons]
    by_cases h : fbc0 c = []
    · have he : st.files_by_category c = [] := (hinv c).mpr h
      rw [processStep_empty env st c he, ih st hinv]
      simp [h]
    · have hinv2 : ∀ c2, (processStep env st c).files_by_category c2 = [] ↔ fbc0 c2 = [] := by
        intro c2
        rw [processStep_fbc]
        by_cases hc : c2 = c
        · simp only [hc, ite_true]
          rw [pySort_eq_nil_iff]
          exact hinv c
        · simp only [hc, ite_false]
          exact hinv c2
      rw [ih (processStep env st c) hinv2, processStep_results_fst]
      have he : ¬ (st.files_by_category c = []) := fun hh => h ((hinv c).mp hh)
      simp [he, h]

theorem process_files_fbc (env : Env) (fbc : FileCategory → List FileMetadata)
    (b : PooledTokenBudget) (c2 : FileCategory) :
    (process_files env fbc b).files_by_category c2
      = if c2 ∈ processing_order then pySort (fbc c2) else fbc c2 := by
  unfold process_files processing_order
  simp only [List.foldl_cons, List.foldl_nil]
  rw [processStep_fbc, processStep_fbc, processStep_fbc, processStep_fbc]
  cases c2 <;> simp [processing_order]


/-- C7: the orchestrator processes exactly the non-empty categories among
CONTEXT, MANIFEST, SIGNAL, SOURCE, in that fixed order; UNKNOWN is never
processed; an empty category is skipped entirely — it produces no output
entry and its step leaves the whole state (budget allocation included)
untouched; and a non-empty category's files are sorted by (score descending,
depth ascending) before being dispatched to the matching extractor. -/
theorem C7_fixed_order_skip_empty (env : Env)
    (fbc : FileCategory → List FileMetadata) (b : PooledTokenBudget) :
    ((process_files env fbc b).results.map Prod.fst
      = processing_order.filter (fun c => !(fbc c).isEmpty))
    ∧ (∀ out, (FileCategory.UNKNOWN, out) ∉ (process_files env fbc b).results)
    ∧ ((∀ c ∈ processing_order, fbc c = []) →
      process_files env fbc b = ⟨fbc, b, []⟩)
    ∧ (∀ st : OrchestratorState, ∀ c, st.files_by_category c = [] →
        processStep env st c = st)
    ∧ (∀ st : OrchestratorState, ∀ c, st.files_by_category c ≠ [] →
        (processStep env st c).results = st.results ++ [(c,
          (if c = FileCategory.SOURCE then
            extract_ctags_for_source_files env (pySort (st.files_by_category c)) st.budget c
          else
            process_readable_files_for_category env (pySort (st.files_by_category c))
              st.budget c).2)]) := by
  have hfst : (process_files env fbc b).results.map Prod.fst
      = processing_order.filter (fun c => !(fbc c).isEmpty) := by
    have h := processFold_results_fst env processing_order ⟨fbc, b, []⟩ fbc
      (fun c2 => Iff.rfl)
    simpa [process_files] using h
  refine ⟨hfst, ?_, ?_, ?_, ?_⟩
  · intro out hmem
    have h1 : FileCategory.UNKNOWN ∈ (process_files env fbc b).results.map Prod.fst :=
      List.mem_map.mpr ⟨(FileCategory.UNKNOWN, out), hmem, rfl⟩
    rw [hfst] at h1
    have h2 := List.mem_of_mem_filter h1
    simp [processing_order] at h2
  · intro hall
    unfold process_files processing_order
    simp only [List.foldl_cons, List.foldl_nil]
    have h1 : processStep env ⟨fbc, b, []⟩ FileCategory.CONTEXT = ⟨fbc, b, []⟩ :=
      processStep_empty _ _ _ (hall _ (by simp [processing_order]))
    rw [h1]
    have h2 : processStep env ⟨fbc, b, []⟩ FileCategory.MANIFEST = ⟨fbc, b, []⟩ :=
      processStep_empty _ _ _ (hall _ (by simp [processing_order]))
    rw [h2]
    have h3 : processStep env ⟨fbc, b, []⟩ FileCategory.SIGNAL = ⟨fbc, b, []⟩ :=
      processStep_empty _ _ _ (hall _ (by simp [processing_order]))
    rw [h3]
    exact processStep_empty _ _ _ (hall _ (by simp [processing_order]))
  · exact fun st c h => processStep_empty env st c h
  · intro st c h
    simp [processStep, h]

/-- Witness for C7: on the concrete map with non-empty CONTEXT and SOURCE the
output keys are exactly CONTEXT then SOURCE, and with every category empty
the orchestrator returns the state unchanged. -/
theorem C7_fixed_order_skip_empty_witness :
    (process_files envW fbcW ⟨limitsNone, 0⟩).results.map Prod.fst
      = [FileCategory.CONTEXT, FileCategory.SOURCE]
    ∧ process_files envW (fun _ => []) ⟨limitsNone, 0⟩
      = ⟨fun _ => [], ⟨limitsNone, 0⟩, []⟩ := by
  constructor
  · rw [(C7_fixed_order_skip_empty envW fbcW ⟨limitsNone, 0⟩).1]
    decide
  · exact (C7_fixed_order_skip_empty envW (fun _ => []) ⟨limitsNone, 0⟩).2.2.1
      (fun c _ => rfl)

/-- C10: `process_files` mutates its input map: after the call every
processed category's list is its stable `(score descending, depth ascending)`
sort — a permutation of the original records, so the `FileMetadata` values
themselves are unchanged — while the UNKNOWN and CHAPTER_FILE lists and
every empty list are left as they were. -/
theorem C10_input_lists_sorted_in_place (env : Env)
    (fbc : FileCategory → List FileMetadata) (b : PooledTokenBudget) :
    (∀ c, c ∈ processing_order →
      (process_files env fbc b).files_by_category c = pySort (fbc c)
        ∧ ((process_files env fbc b).files_by_category c).Perm (fbc c)
        ∧ ((process_files env fbc b).files_by_category c).Pairwise
            (fun x y => sortKeyGE x y = true))
    ∧ (∀ c, c ∉ processing_order →
      (process_files env fbc b).files_by_category c = fbc c)
    ∧ (∀ c, fbc c = [] → (process_files env fbc b).files_by_category c = fbc c) := by
  refine ⟨?_, ?_, ?_⟩
  · intro c hc
    have h := process_files_fbc env fbc b c
    rw [if_pos hc] at h
    refine ⟨h, ?_, ?_⟩
    · rw [h]
      exact pySort_perm (fbc c)
    · rw [h]
      exact pySort_pairwise (fbc c)
  · intro c hc
    have h := process_files_fbc env fbc b c
    rwa [if_neg hc] at h
  · intro c hc
    have h := process_files_fbc env fbc b c
    by_cases hm : c ∈ processing_order
    · rw [if_pos hm] at h
      rw [h, hc]
      rfl
    · rwa [if_neg hm] at h

/-- Witness for C10: on the concrete map the two out-of-order CONTEXT entries
come back sorted by descending score, and the UNKNOWN list is untouched. -/
theorem C10_input_lists_sorted_in_place_witness :
    (process_files envW fbcW ⟨limitsNone, 0⟩).files_by_category FileCategory.CONTEXT
      = [{ file_path := ["b.md"], category := FileCategory.CONTEXT, score := 995 },
         { file_path := ["a", "c.md"], category := FileCategory.CONTEXT, score := 990 }]
    ∧ (process_files envW fbcW ⟨limitsNone, 0⟩).files_by_category FileCategory.UNKNOWN
      = fbcW FileCategory.UNKNOWN := by
  constructor
  · rw [((C10_input_lists_sorted_in_place envW fbcW ⟨limitsNone, 0⟩).1
      FileCategory.CONTEXT (by decide)).1]
    decide
  · exact (C10_input_lists_sorted_in_place envW fbcW ⟨limitsNone, 0⟩).2.1
      FileCategory.UNKNOWN (by decide)


/-- C8: a tag line is retained iff it decodes to a JSON object whose `path`
and `name` are present and non-empty and whose `kind` is in the fixed
allow-list; a decode failure, a missing or empty field, or a kind outside the
allow-list (for example `variable`) is discarded, and a discarded or blank
line leaves the parsing state entirely unchanged. -/
theorem C8_tag_line_allow_list :
    (∀ t : JsonTag, ∀ c : Ctag,
      (parse_tag_line (some t) = some c ↔
        (t.path = some c.path ∧ c.path ≠ "" ∧ t.name = some c.name ∧ c.name ≠ ""
          ∧ t.kind = some c.kind ∧ c.kind ∈ CTAGS_KINDS)))
    ∧ parse_tag_line none = none
    ∧ (∀ t : JsonTag, kindAllowed t.kind = false → parse_tag_line (some t) = none)
    ∧ (∀ env : Env, ∀ st : TagState, ∀ line : String,
        pyStrip line = "" → tagLineStep env st line = st)
    ∧ (∀ env : Env, ∀ st : TagState, ∀ line : String,
        parse_tag_line (env.jparse (pyStrip line)) = none → tagLineStep env st line = st) := by
  refine ⟨?_, rfl, ?_, ?_, ?_⟩
  · intro t c
    obtain ⟨p, k, n⟩ := t
    cases p <;> cases k <;> cases n <;>
      simp [parse_tag_line, pyFalsy, kindAllowed, Ctag.mk.injEq] <;>
      aesop
  · intro t h
    simp [parse_tag_line, h]
  · intro env st line h
    simp [tagLineStep, h]
  · intro env st line h
    unfold tagLineStep
    by_cases hl : pyStrip line = ""
    · simp [hl]
    · simp [hl, h]

/-- Witness for C8: a `function` tag with non-empty path and name is kept, a
`variable` tag is dropped, and a whitespace-only line leaves the state
unchanged. -/
theorem C8_tag_line_allow_list_witness :
    parse_tag_line (some ⟨some "f.py", some "function", some "foo"⟩)
      = some ⟨"f.py", "function", "foo"⟩
    ∧ parse_tag_line (some ⟨some "f.py", some "variable", some "x"⟩) = none
    ∧ tagLineStep envW ⟨none, [], [], 0⟩ " " = ⟨none, [], [], 0⟩ := by
  refine ⟨?_, ?_, ?_⟩
  · exact (C8_tag_line_allow_list.1 ⟨some "f.py", some "function", some "foo"⟩
      ⟨"f.py", "function", "foo"⟩).mpr (by decide)
  · exact C8_tag_line_allow_list.2.2.1 ⟨some "f.py", some "variable", some "x"⟩ (by decide)
  · exact C8_tag_line_allow_list.2.2.2.1 envW ⟨none, [], [], 0⟩ " " (by decide)

/-- C1: the claim says each successive ctags batch starts past every file
submitted in the previous batch, so no file is submitted twice and none
skipped while budget remains.  The code instead advances the start index by
the number of distinct tag-path groups in the subprocess output: on two files
`a`, `b` where `a` yields no tags, the first batch `[a, b]` returns next
index 1, the second batch resubmits `b`, the output of `b` is appended (and
paid for) twice, and `a` is never accounted — all with ample budget
remaining. -/
theorem C1_batch_index_advances_per_group :
    run_ctags envC1 filesC1 0
      = (some [⟨"b", "source_file", "function f"⟩], 1)
    ∧ filesC1.length = 2
    ∧ run_ctags envC1 filesC1 1
      = (some [⟨"b", "source_file", "function f"⟩], 2)
    ∧ extract_ctags_for_source_files envC1 filesC1 ⟨limitsNone, 100⟩ FileCategory.SOURCE
      = (⟨limitsNone, 98⟩,
         [⟨"b", "source_file", "function f"⟩, ⟨"b", "source_file", "function f"⟩]) := by
  refine ⟨by decide, rfl, by decide, ?_⟩
  rfl


/-- Witness for C6: `README.md` satisfies the universal-context condition and
is therefore categorized CONTEXT, by the priority chain. -/
theorem C6_category_priority_chain_witness :
    (calculate_significance ["README.md"] SupportedLanguage.PY).category
      = FileCategory.CONTEXT :=
  ((C6_category_priority_chain ["README.md"] SupportedLanguage.PY).1).mpr (by decide)

/-- Witness for C9: on a concrete run over missing files the loop computes
exactly what it computes on the filtered (readable-only) list. -/
theorem C9_missing_and_read_errors_skipped_witness :
    readableLoop envW FileCategory.CONTEXT (fbcW FileCategory.CONTEXT) ⟨limitsNone, 5⟩ []
      = readableLoop envW FileCategory.CONTEXT
          ((fbcW FileCategory.CONTEXT).filter (keepsFile envW)) ⟨limitsNone, 5⟩ [] :=
  C9_missing_and_read_errors_skipped envW FileCategory.CONTEXT
    (fbcW FileCategory.CONTEXT) ⟨limitsNone, 5⟩ []

end Sential
